import Mathlib

/-!
Shallow embedding of the core of `react-observable-class`:
- `src/callbacksQueue.ts`: a batching, deduplicating callback scheduler
  (`scheduleCallbacks`, `callCallback`, module-level sets `callacksQueue`
  and `calledCallbacks`, and a microtask-deferred flush).
- `src/index.tsx`: proxy traps (`set`, `defineProperty`, `deleteProperty`)
  over an observable instance, the abstract `Observable` constructor,
  argument validation (`observablesArgsCheck`) and `forceNotify`.

JS `Set` objects are modelled as insertion-ordered duplicate-free lists;
microtask scheduling (`promise.then(...)`) is modelled by a counter of
queued flush tasks, consumed by `runFlush`.
-/

namespace ReactObservable

/-- JS values as far as the library inspects them. `int 0` is `+0`;
`negZero` is `-0`; `nan` is `NaN`; `undefV` is `undefined`.  The type keeps
`NaN` and the two zeroes apart so that `Object.is` and `===` can disagree
exactly where JS makes them disagree. -/
inductive Value where
  | undefV
  | nullV
  | nan
  | negZero
  | int (n : Int)
  | str (s : String)
  | boolV (b : Bool)
  | obj (id : Nat)
  deriving DecidableEq, Repr

/-- `Object.is`: same-value equality. `Object.is(NaN, NaN)` is true and
`Object.is(0, -0)` is false, which is structural equality on `Value`. -/
def objectIs (a b : Value) : Bool :=
  decide (a = b)

/-- Strict equality `===`: like `Object.is` except `NaN === NaN` is false
and `0 === -0` is true. -/
def strictEq (a b : Value) : Bool :=
  match a, b with
  | .nan, _ => false
  | _, .nan => false
  | .negZero, .int n => decide (n = 0)
  | .int n, .negZero => decide (n = 0)
  | a, b => decide (a = b)

/-- Callback identities (`CB` in `callbacksQueue.ts`): opaque handles,
compared by reference.  We model references as naturals. -/
abbrev CB := Nat

/-- `Set.add`: append to an insertion-ordered duplicate-free list unless
already present. -/
def setAdd (s : List CB) (c : CB) : List CB :=
  if c ∈ s then s else s ++ [c]

/-- `callbackSet.forEach((callback) => callacksQueue.add(callback))`:
merge every element of `S` into the set `q`, in iteration order. -/
def addAll (q : List CB) (S : List CB) : List CB :=
  S.foldl setAdd q

/-- The module-level mutable state of `callbacksQueue.ts`:
`callacksQueue` (the name keeps the source's spelling) and
`calledCallbacks` are the two `Set`s; `scheduledFlushes` counts flush
tasks queued on the microtask queue by `promise.then(...)`. -/
structure SchedState where
  callacksQueue : List CB
  calledCallbacks : List CB
  scheduledFlushes : Nat
  deriving DecidableEq, Repr

/-- The initial module state: both sets empty, no flush queued. -/
def idleState : SchedState :=
  { callacksQueue := [], calledCallbacks := [], scheduledFlushes := 0 }

/-- `scheduleCallbacks(callbackSet)`: record whether the queue was empty,
merge the supplied set into the queue, and queue a flush microtask when
the queue was empty and the supplied set is non-empty. -/
def scheduleCallbacks (callbackSet : List CB) (st : SchedState) : SchedState :=
  let noPending := st.callacksQueue.isEmpty
  let queue := addAll st.callacksQueue callbackSet
  if noPending && !callbackSet.isEmpty then
    { callacksQueue := queue, calledCallbacks := st.calledCallbacks,
      scheduledFlushes := st.scheduledFlushes + 1 }
  else
    { callacksQueue := queue, calledCallbacks := st.calledCallbacks,
      scheduledFlushes := st.scheduledFlushes }

/-- The observable environment for a flush: what each callback body does
when invoked — it either returns or throws an error message. -/
abbrev Exec := CB → Except String Unit

/-- The error, if any, that invoking `cb` raises. -/
def errOf (exec : Exec) (cb : CB) : Option String :=
  match exec cb with
  | .ok _ => none
  | .error e => some e

/-- Accumulator for one flush pass: the `calledCallbacks` guard set, the
list of callbacks actually invoked (in order), and the messages passed to
`console.error`. -/
structure FlushAcc where
  calledCallbacks : List CB
  invoked : List CB
  errorLog : List String
  deriving DecidableEq, Repr

/-- `callCallback(callback)`: skip when the guard set already holds the
callback; otherwise add it to the guard set, invoke it, and catch and log
anything it throws. -/
def callCallback (exec : Exec) (acc : FlushAcc) (callback : CB) : FlushAcc :=
  if callback ∈ acc.calledCallbacks then
    acc
  else
    { calledCallbacks := acc.calledCallbacks ++ [callback],
      invoked := acc.invoked ++ [callback],
      errorLog := acc.errorLog ++ (errOf exec callback).toList }

/-- The flush microtask queued by `promise.then`: iterate `callacksQueue`
through `callCallback`, then clear `calledCallbacks` and `callacksQueue`.
Returns the new module state, the callbacks invoked, and the error log. -/
def runFlush (exec : Exec) (st : SchedState) : SchedState × List CB × List String :=
  let acc := st.callacksQueue.foldl (callCallback exec)
    { calledCallbacks := st.calledCallbacks, invoked := [], errorLog := [] }
  ({ callacksQueue := [], calledCallbacks := [],
     scheduledFlushes := st.scheduledFlushes - 1 },
   acc.invoked, acc.errorLog)

/-- One observable step of the scheduler module: either some caller runs
`scheduleCallbacks`, or a queued flush microtask runs. -/
inductive Step : SchedState → SchedState → Prop where
  | schedule (S : List CB) (st : SchedState) : Step st (scheduleCallbacks S st)
  | flush (exec : Exec) (st : SchedState) (h : 1 ≤ st.scheduledFlushes) :
      Step st (runFlush exec st).1

/-- States the scheduler module can reach from its initial state. -/
inductive Reachable : SchedState → Prop where
  | idle : Reachable idleState
  | step {st st' : SchedState} : Reachable st → Step st st' → Reachable st'

/-- An observable instance's target: its own enumerable attributes as an
insertion-ordered record, plus the hidden `[observersKey]` set of
subscribed callbacks.  The model covers data properties; installing an
accessor via `Reflect.defineProperty` is outside the attribute record. -/
structure Instance where
  attrs : List (String × Value)
  observers : List CB
  deriving DecidableEq, Repr

/-- `target[prop]`: read an own attribute; a missing attribute reads as
`undefined`. -/
def getValue (attrs : List (String × Value)) (prop : String) : Value :=
  match attrs.find? (fun kv => kv.1 == prop) with
  | some kv => kv.2
  | none => .undefV

/-- `Reflect.set` on a data property: overwrite in place when the key
exists, else append (JS keeps first-insertion enumeration order). -/
def setAttr (attrs : List (String × Value)) (prop : String) (v : Value) :
    List (String × Value) :=
  if attrs.any (fun kv => kv.1 == prop) then
    attrs.map (fun kv => if kv.1 == prop then (prop, v) else kv)
  else
    attrs ++ [(prop, v)]

/-- `Reflect.deleteProperty`: drop the key from the record. -/
def removeAttr (attrs : List (String × Value)) (prop : String) :
    List (String × Value) :=
  attrs.filter (fun kv => kv.1 != prop)

/-- A property descriptor as the `defineProperty` trap inspects it:
`value = some v` iff `hasOwn(descriptor, "value")`; `hasGet` records an
accessor (`get`) field, which the trap deliberately ignores. -/
structure Descriptor where
  value : Option Value
  hasGet : Bool
  deriving DecidableEq, Repr

/-- `proxyTraps.set`: if the new value is not `Object.is`-equal to the
current one, schedule the instance's observer set; then apply the write
(`Reflect.set`) in every case.  The comparison reads the pre-write
value, so scheduling happens before the write is applied. -/
def setTrap (target : Instance) (prop : String) (newValue : Value)
    (st : SchedState) : Instance × SchedState :=
  let st := if !objectIs (getValue target.attrs prop) newValue then
      scheduleCallbacks target.observers st
    else st
  ({ target with attrs := setAttr target.attrs prop newValue }, st)

/-- `proxyTraps.defineProperty`: only `descriptor.value` is supported —
schedule the observer set exactly when the descriptor has an own `value`
field whose value is not `Object.is`-equal to the current one; then apply
the definition (`Reflect.defineProperty`).  An accessor descriptor never
schedules; its installation touches no data attribute of the record. -/
def definePropertyTrap (target : Instance) (prop : String) (d : Descriptor)
    (st : SchedState) : Instance × SchedState :=
  let st := match d.value with
    | some v =>
        if !objectIs (getValue target.attrs prop) v then
          scheduleCallbacks target.observers st
        else st
    | none => st
  let target := match d.value with
    | some v => { target with attrs := setAttr target.attrs prop v }
    | none => target
  (target, st)

/-- `proxyTraps.deleteProperty`: if `target[prop] !== undefined`, schedule
the observer set; then perform the deletion (`Reflect.deleteProperty`). -/
def deletePropertyTrap (target : Instance) (prop : String)
    (st : SchedState) : Instance × SchedState :=
  let st := if !strictEq (getValue target.attrs prop) .undefV then
      scheduleCallbacks target.observers st
    else st
  ({ target with attrs := removeAttr target.attrs prop }, st)

/-- The constructor identity (`this.constructor`) at `Observable`'s
constructor body: either the abstract base itself or a derived class. -/
inductive Ctor where
  | observableBase
  | derived (name : String)
  deriving DecidableEq, Repr

/-- What construction hands back: the plain target, or the proxy wrapper
(`new Proxy(this, proxyTraps)`) around it. -/
inductive Handle where
  | plainH (target : Instance)
  | proxyH (target : Instance)
  deriving DecidableEq, Repr

/-- The `Observable` constructor: the field initializer gives the fresh
instance an empty observer set; then the body throws a `TypeError` when
`this.constructor === Observable`, and otherwise returns the proxy around
the instance rather than the instance itself. -/
def observableConstructor (ctor : Ctor) : Except String Handle :=
  if ctor = .observableBase then
    .error "Observable is an abstract class and cannot be instantiated"
  else
    .ok (.proxyH { attrs := [], observers := [] })

/-- An argument to `forceNotify` as `observablesArgsCheck` inspects it:
`some obs` when `o[observersKey]` is a genuine observer set, `none` when
the argument lacks one (it is not an observable instance). -/
abbrev ObsArg := Option (List CB)

/-- `observablesArgsCheck(fnName, observables)`: throw when called with
zero arguments, then throw when some argument lacks an observer set. -/
def observablesArgsCheck (fnName : String) (observables : List ObsArg) :
    Except String Unit :=
  if observables.isEmpty then
    .error (fnName ++ " was called without observables")
  else if observables.any (fun o => o.isNone) then
    .error (fnName ++ " was called with non-observables")
  else
    .ok ()

/-- `forceNotify(...observables)`: validate all arguments first; only
then loop over them, calling `scheduleCallbacks` once per argument with
that argument's observer set. -/
def forceNotify (observables : List ObsArg) (st : SchedState) :
    Except String Unit × SchedState :=
  match observablesArgsCheck "forceNotify" observables with
  | .error e => (.error e, st)
  | .ok _ =>
      (.ok (), observables.foldl (fun s o => scheduleCallbacks (o.getD []) s) st)

/-- The trap table passed to `new Proxy`: `proxyTraps` in `index.tsx`
defines exactly `set`, `defineProperty` and `deleteProperty`; every
read-side trap (`get`, `ownKeys`, ...) is absent, so those operations
fall through to the target via the default `Reflect` behavior. -/
structure TrapTable where
  setT : Option (Instance → String → Value → SchedState → Instance × SchedState)
  definePropertyT : Option (Instance → String → Descriptor → SchedState → Instance × SchedState)
  deletePropertyT : Option (Instance → String → SchedState → Instance × SchedState)
  getT : Option (Instance → String → SchedState → Value × SchedState)
  ownKeysT : Option (Instance → SchedState → List String × SchedState)

/-- `proxyTraps`: the three mutation traps, and nothing on the read side. -/
def proxyTraps : TrapTable :=
  { setT := some setTrap
    definePropertyT := some definePropertyTrap
    deletePropertyT := some deletePropertyTrap
    getT := none
    ownKeysT := none }

/-- A `[[Get]]` through the proxy: use the `get` trap when the table has
one, else forward to the target, touching no scheduler state. -/
def proxyGet (traps : TrapTable) (target : Instance) (prop : String)
    (st : SchedState) : Value × SchedState :=
  match traps.getT with
  | some t => t target prop st
  | none => (getValue target.attrs prop, st)

/-- `[[OwnPropertyKeys]]` through the proxy: use the `ownKeys` trap when
the table has one, else forward to the target. -/
def proxyOwnKeys (traps : TrapTable) (target : Instance)
    (st : SchedState) : List String × SchedState :=
  match traps.ownKeysT with
  | some t => t target st
  | none => (target.attrs.map Prod.fst, st)

/-- Serialization of enumerable own attributes through a key list and a
reader, the shape `JSON.stringify` consumes. -/
def serializeVia (readAttr : String → Value) (keys : List String) :
    List (String × Value) :=
  keys.map (fun k => (k, readAttr k))

/-- `JSON.stringify(instance)` as routed through the proxy: enumerate own
keys through the proxy, read each value through the proxy, threading the
scheduler state to surface any side effect a trap might have. -/
def proxySerialize (traps : TrapTable) (target : Instance)
    (st : SchedState) : List (String × Value) × SchedState :=
  (proxyOwnKeys traps target st).1.foldl
    (fun (acc : List (String × Value) × SchedState) k =>
      (acc.1 ++ [(k, (proxyGet traps target k acc.2).1)],
        (proxyGet traps target k acc.2).2))
    ([], (proxyOwnKeys traps target st).2)

/-- `JSON.stringify(plainRecord)`: the same serialization on the plain
record holding the same attributes, with no proxy in the way. -/
def plainSerialize (attrs : List (String × Value)) : List (String × Value) :=
  serializeVia (getValue attrs) (attrs.map Prod.fst)

/-- The module-level invariant of `callbacksQueue.ts`: at most one flush
microtask is queued, one is queued exactly when the working set is
non-empty, and the invoked-guard set is empty outside a flush. -/
def schedInvariant (st : SchedState) : Prop :=
  st.scheduledFlushes ≤ 1 ∧ (st.scheduledFlushes = 1 ↔ st.callacksQueue ≠ []) ∧
    st.calledCallbacks = []

/-- The effect of a whole synchronous run that calls `scheduleCallbacks`
once per mutation, in order. -/
def scheduleAll (L : List (List CB)) (st : SchedState) : SchedState :=
  L.foldl (fun s S => scheduleCallbacks S s) st

/-- The deduplicated union of all sets scheduled during a run, in first
enqueue order — the round's working set. -/
def unionSets (L : List (List CB)) : List CB :=
  L.foldl addAll []

/-- One intercepted top-level write: the target instance as it stands at
the moment of the mutation, the property written, and the new value. -/
structure Mutation where
  target : Instance
  prop : String
  newValue : Value
  deriving DecidableEq, Repr

/-- The scheduler-state effect of a synchronous run of writes, each one
going through the proxy's `set` trap in order. -/
def mutateAll (ms : List Mutation) (st : SchedState) : SchedState :=
  ms.foldl (fun s m => (setTrap m.target m.prop m.newValue s).2) st

/-! ### Set and queue lemmas -/

theorem mem_setAdd {q : List CB} {a c : CB} : c ∈ setAdd q a ↔ c ∈ q ∨ c = a := by
  unfold setAdd
  split
  · rename_i h
    constructor
    · exact Or.inl
    · rintro (hc | rfl)
      · exact hc
      · exact h
  · simp [List.mem_append]

theorem nodup_setAdd {q : List CB} {a : CB} (h : q.Nodup) : (setAdd q a).Nodup := by
  unfold setAdd
  split
  · exact h
  · rename_i ha
    simp [List.nodup_append, h, ha]

theorem mem_addAll {q S : List CB} {c : CB} : c ∈ addAll q S ↔ c ∈ q ∨ c ∈ S := by
  induction S generalizing q with
  | nil => simp [addAll]
  | cons a t ih =>
      rw [show addAll q (a :: t) = addAll (setAdd q a) t from rfl, ih, mem_setAdd]
      simp [List.mem_cons]
      tauto

theorem nodup_addAll {q S : List CB} (h : q.Nodup) : (addAll q S).Nodup := by
  induction S generalizing q with
  | nil => exact h
  | cons a t ih => exact ih (nodup_setAdd h)

theorem addAll_eq_nil_iff {q S : List CB} : addAll q S = [] ↔ q = [] ∧ S = [] := by
  constructor
  · intro h
    constructor
    · by_contra hq
      obtain ⟨c, hc⟩ := List.exists_mem_of_ne_nil q hq
      have hm := (@mem_addAll q S c).mpr (Or.inl hc)
      rw [h] at hm
      exact absurd hm (List.not_mem_nil c)
    · by_contra hs
      obtain ⟨c, hc⟩ := List.exists_mem_of_ne_nil S hs
      have hm := (@mem_addAll q S c).mpr (Or.inr hc)
      rw [h] at hm
      exact absurd hm (List.not_mem_nil c)
  · rintro ⟨rfl, rfl⟩
    rfl

/-! ### `scheduleCallbacks` structure lemmas -/

theorem scheduleCallbacks_queue (S : List CB) (st : SchedState) :
    (scheduleCallbacks S st).callacksQueue = addAll st.callacksQueue S := by
  simp only [scheduleCallbacks]
  split <;> rfl

theorem scheduleCallbacks_called (S : List CB) (st : SchedState) :
    (scheduleCallbacks S st).calledCallbacks = st.calledCallbacks := by
  simp only [scheduleCallbacks]
  split <;> rfl

theorem scheduleCallbacks_flushes (S : List CB) (st : SchedState) :
    (scheduleCallbacks S st).scheduledFlushes =
      st.scheduledFlushes + (if st.callacksQueue = [] ∧ S ≠ [] then 1 else 0) := by
  unfold scheduleCallbacks
  by_cases h1 : st.callacksQueue = [] <;> by_cases h2 : S = [] <;>
    simp [h1, h2, List.isEmpty_iff]

theorem scheduleCallbacks_nil (st : SchedState) : scheduleCallbacks [] st = st := by
  unfold scheduleCallbacks
  simp [addAll]

/-! ### The scheduler invariant over reachable states -/

theorem schedInvariant_schedule {st : SchedState} (S : List CB)
    (h : schedInvariant st) : schedInvariant (scheduleCallbacks S st) := by
  obtain ⟨h1, h2, h3⟩ := h
  refine ⟨?_, ?_, ?_⟩
  · rw [scheduleCallbacks_flushes]
    split
    · rename_i hc
      have : st.scheduledFlushes ≠ 1 := fun he => (h2.mp he) hc.1
      omega
    · omega
  · rw [scheduleCallbacks_flushes, scheduleCallbacks_queue]
    by_cases hs : S = []
    · subst hs
      rw [if_neg (fun hc => hc.2 rfl), Nat.add_zero,
        show addAll st.callacksQueue [] = st.callacksQueue from rfl]
      exact h2
    · have hne : addAll st.callacksQueue S ≠ [] :=
        fun hn => hs (addAll_eq_nil_iff.mp hn).2
      by_cases hq : st.callacksQueue = []
      · have h0 : st.scheduledFlushes ≠ 1 := fun he => (h2.mp he) hq
        rw [if_pos ⟨hq, hs⟩]
        constructor
        · intro _
          exact hne
        · intro _
          omega
      · rw [if_neg (fun hc => hq hc.1), Nat.add_zero]
        constructor
        · intro _
          exact hne
        · intro _
          exact h2.mpr hq
  · rw [scheduleCallbacks_called]
    exact h3

theorem runFlush_state (exec : Exec) (st : SchedState) :
    (runFlush exec st).1 =
      { callacksQueue := [], calledCallbacks := [],
        scheduledFlushes := st.scheduledFlushes - 1 } := rfl

theorem schedInvariant_flush {st : SchedState} (exec : Exec)
    (h : schedInvariant st) : schedInvariant (runFlush exec st).1 := by
  obtain ⟨h1, h2, h3⟩ := h
  rw [runFlush_state]
  refine ⟨by simp; omega, ?_, rfl⟩
  simp
  omega

theorem reachable_schedInvariant {st : SchedState} (h : Reachable st) :
    schedInvariant st := by
  induction h with
  | idle => exact ⟨by simp [idleState], by simp [idleState], rfl⟩
  | step _ hstep ih =>
      cases hstep with
      | schedule S st => exact schedInvariant_schedule S ih
      | flush exec st hf => exact schedInvariant_flush exec ih

/-! ### Folded scheduling and the flush pass -/

theorem scheduleAll_queue (L : List (List CB)) (st : SchedState) :
    (scheduleAll L st).callacksQueue = L.foldl addAll st.callacksQueue := by
  induction L generalizing st with
  | nil => rfl
  | cons S t ih =>
      rw [show scheduleAll (S :: t) st = scheduleAll t (scheduleCallbacks S st) from rfl,
        ih, scheduleCallbacks_queue]
      rfl

theorem scheduleAll_called (L : List (List CB)) (st : SchedState) :
    (scheduleAll L st).calledCallbacks = st.calledCallbacks := by
  induction L generalizing st with
  | nil => rfl
  | cons S t ih =>
      rw [show scheduleAll (S :: t) st = scheduleAll t (scheduleCallbacks S st) from rfl,
        ih, scheduleCallbacks_called]

theorem reachable_scheduleAll (L : List (List CB)) {st : SchedState}
    (h : Reachable st) : Reachable (scheduleAll L st) := by
  induction L generalizing st with
  | nil => exact h
  | cons S t ih => exact ih (Reachable.step h (Step.schedule S st))

theorem mem_foldl_addAll {L : List (List CB)} {q : List CB} {c : CB} :
    c ∈ L.foldl addAll q ↔ c ∈ q ∨ ∃ S ∈ L, c ∈ S := by
  induction L generalizing q with
  | nil => simp
  | cons S t ih =>
      rw [List.foldl_cons, ih, mem_addAll]
      simp [List.mem_cons]
      tauto

theorem nodup_foldl_addAll {L : List (List CB)} {q : List CB} (h : q.Nodup) :
    (L.foldl addAll q).Nodup := by
  induction L generalizing q with
  | nil => exact h
  | cons S t ih => exact ih (nodup_addAll h)

theorem mem_unionSets {L : List (List CB)} {c : CB} :
    c ∈ unionSets L ↔ ∃ S ∈ L, c ∈ S := by
  rw [show unionSets L = L.foldl addAll [] from rfl, mem_foldl_addAll]
  simp

theorem foldl_callCallback (exec : Exec) (l : List CB) :
    ∀ (c i g : _), l.Nodup → (∀ x ∈ l, x ∉ c) →
      l.foldl (callCallback exec) ⟨c, i, g⟩ =
        ⟨c ++ l, i ++ l, g ++ l.filterMap (errOf exec)⟩ := by
  induction l with
  | nil =>
      intro c i g _ _
      simp
  | cons a t ih =>
      intro c i g hnd hdis
      have ha : a ∉ c := hdis a (List.mem_cons_self a t)
      rw [List.foldl_cons]
      have hstep : callCallback exec ⟨c, i, g⟩ a =
          ⟨c ++ [a], i ++ [a], g ++ (errOf exec a).toList⟩ := by
        unfold callCallback
        simp [ha]
      rw [hstep]
      have hdis' : ∀ x ∈ t, x ∉ c ++ [a] := by
        intro x hx
        have hxc : x ∉ c := hdis x (List.mem_cons_of_mem a hx)
        have hxa : x ≠ a := by
          intro he
          subst he
          exact (List.nodup_cons.mp hnd).1 hx
        simp [List.mem_append, hxc, hxa]
      rw [ih (c ++ [a]) (i ++ [a]) (g ++ (errOf exec a).toList)
        (List.nodup_cons.mp hnd).2 hdis']
      cases he : errOf exec a <;>
        simp [List.filterMap_cons, he, List.append_assoc]

/-! ### Attribute record lemmas -/

theorem find?_map_overwrite (attrs : List (String × Value)) (prop : String)
    (v : Value) (h : attrs.any (fun kv => kv.1 == prop) = true) :
    (attrs.map (fun kv => if kv.1 == prop then (prop, v) else kv)).find?
      (fun kv => kv.1 == prop) = some (prop, v) := by
  induction attrs with
  | nil => simp at h
  | cons kv t ih =>
      cases hk : (kv.1 == prop) with
      | true =>
          rw [List.map_cons, if_pos hk, List.find?_cons_of_pos _ (by simp)]
      | false =>
          have ht : t.any (fun kv => kv.1 == prop) = true := by
            simpa [List.any_cons, hk] using h
          rw [List.map_cons, if_neg (by simp [hk]),
            List.find?_cons_of_neg _ (by simp [hk])]
          exact ih ht

theorem find?_append_new (attrs : List (String × Value)) (prop : String)
    (v : Value) (h : attrs.any (fun kv => kv.1 == prop) = false) :
    (attrs ++ [(prop, v)]).find? (fun kv => kv.1 == prop) = some (prop, v) := by
  induction attrs with
  | nil => simp [List.find?]
  | cons kv t ih =>
      simp [List.any_cons] at h
      obtain ⟨hk, ht⟩ := h
      rw [List.cons_append]
      rw [List.find?_cons_of_neg _ (by simpa using hk)]
      exact ih (by simpa using ht)

theorem getValue_setAttr (attrs : List (String × Value)) (prop : String)
    (v : Value) : getValue (setAttr attrs prop v) prop = v := by
  unfold setAttr getValue
  cases ha : attrs.any (fun kv => kv.1 == prop) with
  | true => rw [if_pos rfl, find?_map_overwrite attrs prop v ha]
  | false => rw [if_neg (by simp), find?_append_new attrs prop v ha]

theorem getValue_removeAttr (attrs : List (String × Value)) (prop : String) :
    getValue (removeAttr attrs prop) prop = .undefV := by
  unfold getValue removeAttr
  have hnone : (attrs.filter (fun kv => kv.1 != prop)).find?
      (fun kv => kv.1 == prop) = none := by
    rw [List.find?_eq_none]
    intro kv hkv
    have hmem := List.of_mem_filter hkv
    simp only [bne_iff_ne, ne_eq] at hmem
    simpa using hmem
  rw [hnone]

theorem strictEq_undefV (v : Value) : strictEq v .undefV = decide (v = .undefV) := by
  cases v <;> rfl

theorem mem_scheduleCallbacks {S : List CB} {st : SchedState} {cb : CB}
    (h : cb ∈ S) : cb ∈ (scheduleCallbacks S st).callacksQueue := by
  rw [scheduleCallbacks_queue]
  exact mem_addAll.mpr (Or.inr h)

theorem observablesArgsCheck_ok (fnName : String) (args : List ObsArg)
    (hne : args ≠ []) (hv : none ∉ args) :
    observablesArgsCheck fnName args = Except.ok () := by
  unfold observablesArgsCheck
  have hany : args.any (fun o => o.isNone) = false := by
    rw [List.any_eq_false]
    intro o ho hno
    exact hv (Option.isNone_iff_eq_none.mp hno ▸ ho)
  rw [if_neg (by simpa using hne), if_neg (by simp [hany])]

theorem forceNotify_ok (args : List ObsArg) (st : SchedState)
    (hne : args ≠ []) (hv : none ∉ args) :
    forceNotify args st =
      (Except.ok (), scheduleAll (args.map (fun o => o.getD [])) st) := by
  unfold forceNotify
  rw [observablesArgsCheck_ok "forceNotify" args hne hv]
  simp only [scheduleAll, List.foldl_map]

theorem mutateAll_eq_scheduleAll (ms : List Mutation) (st : SchedState)
    (h : ∀ m ∈ ms, objectIs (getValue m.target.attrs m.prop) m.newValue = false) :
    mutateAll ms st = scheduleAll (ms.map (fun m => m.target.observers)) st := by
  induction ms generalizing st with
  | nil => rfl
  | cons m t ih =>
      have hm := h m (List.mem_cons_self m t)
      rw [show mutateAll (m :: t) st
          = mutateAll t ((setTrap m.target m.prop m.newValue st).2) from rfl]
      rw [show (setTrap m.target m.prop m.newValue st).2
          = scheduleCallbacks m.target.observers st from by simp [setTrap, hm]]
      rw [ih _ (fun x hx => h x (List.mem_cons_of_mem m hx))]
      rfl

theorem runFlush_spec (exec : Exec) (st : SchedState)
    (hnd : st.callacksQueue.Nodup) (hc : st.calledCallbacks = []) :
    (runFlush exec st).2.1 = st.callacksQueue ∧
    (runFlush exec st).2.2 = st.callacksQueue.filterMap (errOf exec) ∧
    (runFlush exec st).1.callacksQueue = [] ∧
    (runFlush exec st).1.calledCallbacks = [] := by
  have hfold := foldl_callCallback exec st.callacksQueue st.calledCallbacks [] []
    hnd (by intro x _; rw [hc]; exact List.not_mem_nil x)
  simp only [runFlush]
  rw [hfold]
  simp

theorem proxySerialize_aux (target : Instance) (keys : List String) :
    ∀ (acc : List (String × Value)) (st : SchedState),
      keys.foldl
        (fun (a : List (String × Value) × SchedState) k =>
          (a.1 ++ [(k, (proxyGet proxyTraps target k a.2).1)],
            (proxyGet proxyTraps target k a.2).2))
        (acc, st) =
      (acc ++ keys.map (fun k => (k, getValue target.attrs k)), st) := by
  induction keys with
  | nil =>
      intro acc st
      simp
  | cons k t ih =>
      intro acc st
      show t.foldl
        (fun (a : List (String × Value) × SchedState) k =>
          (a.1 ++ [(k, (proxyGet proxyTraps target k a.2).1)],
            (proxyGet proxyTraps target k a.2).2))
        (acc ++ [(k, getValue target.attrs k)], st) =
        (acc ++ (k :: t).map (fun k => (k, getValue target.attrs k)), st)
      rw [ih]
      simp

/-! ### The claims -/

/-- Claim C2: a write of `newValue` to a top-level property schedules the
instance's observer set exactly when the new value is not same-value
equal (`Object.is`, strict and NaN-aware) to the current one; the
comparison reads the pre-write value, so scheduling happens before the
write; and the write is applied to the target in every case. -/
theorem set_schedules_iff_changed (target : Instance) (prop : String)
    (newValue : Value) (st : SchedState) :
    (objectIs (getValue target.attrs prop) newValue = true →
      (setTrap target prop newValue st).2 = st) ∧
    (objectIs (getValue target.attrs prop) newValue = false →
      (setTrap target prop newValue st).2 = scheduleCallbacks target.observers st ∧
      ∀ cb ∈ target.observers,
        cb ∈ (setTrap target prop newValue st).2.callacksQueue) ∧
    getValue (setTrap target prop newValue st).1.attrs prop = newValue := by
  refine ⟨?_, ?_, ?_⟩
  · intro h
    simp [setTrap, h]
  · intro h
    have he : (setTrap target prop newValue st).2
        = scheduleCallbacks target.observers st := by
      simp [setTrap, h]
    exact ⟨he, fun cb hcb => he ▸ mem_scheduleCallbacks hcb⟩
  · show getValue (setAttr target.attrs prop newValue) prop = newValue
    exact getValue_setAttr _ _ _

/-- Witness for `set_schedules_iff_changed`: a concrete genuinely
changing write schedules the observer set. -/
theorem set_schedules_iff_changed_witness :
    (setTrap { attrs := [("p", Value.int 1)], observers := [7] } "p"
      (Value.int 2) idleState).2 = scheduleCallbacks [7] idleState :=
  ((set_schedules_iff_changed { attrs := [("p", Value.int 1)], observers := [7] }
    "p" (Value.int 2) idleState).2.1 (by decide)).1

/-- Claim C4: deleting a top-level attribute schedules the observer set
exactly when the attribute's current value is anything other than the
absent/`undefined` sentinel, and the deletion is then performed on the
target. -/
theorem delete_schedules_iff_present (target : Instance) (prop : String)
    (st : SchedState) :
    (getValue target.attrs prop = Value.undefV →
      (deletePropertyTrap target prop st).2 = st) ∧
    (getValue target.attrs prop ≠ Value.undefV →
      (deletePropertyTrap target prop st).2 = scheduleCallbacks target.observers st) ∧
    getValue (deletePropertyTrap target prop st).1.attrs prop = Value.undefV := by
  refine ⟨?_, ?_, ?_⟩
  · intro h
    simp [deletePropertyTrap, strictEq_undefV, h]
  · intro h
    simp [deletePropertyTrap, strictEq_undefV, h]
  · show getValue (removeAttr target.attrs prop) prop = Value.undefV
    exact getValue_removeAttr _ _

/-- Witness for `delete_schedules_iff_present`: deleting a present
attribute schedules the observer set. -/
theorem delete_schedules_iff_present_witness :
    (deletePropertyTrap { attrs := [("p", Value.int 1)], observers := [3] } "p"
      idleState).2 = scheduleCallbacks [3] idleState :=
  (delete_schedules_iff_present { attrs := [("p", Value.int 1)], observers := [3] }
    "p" idleState).2.1 (by decide)

/-- Claim C5: a direct property definition schedules the observer set
exactly when the descriptor carries an own `value` field whose value
differs in the same-value sense from the attribute's current value, and
the definition is then applied; a descriptor without a `value` field —
in particular any getter/accessor descriptor, whatever its shape — never
schedules a notification. -/
theorem defineProperty_schedules_iff_value_changed (target : Instance)
    (prop : String) (d : Descriptor) (st : SchedState) :
    (d.value = none → (definePropertyTrap target prop d st).2 = st) ∧
    ∀ v : Value, d.value = some v →
      (objectIs (getValue target.attrs prop) v = true →
        (definePropertyTrap target prop d st).2 = st) ∧
      (objectIs (getValue target.attrs prop) v = false →
        (definePropertyTrap target prop d st).2 =
          scheduleCallbacks target.observers st) ∧
      getValue (definePropertyTrap target prop d st).1.attrs prop = v := by
  constructor
  · intro h
    simp [definePropertyTrap, h]
  · intro v hv
    refine ⟨?_, ?_, ?_⟩
    · intro h
      simp [definePropertyTrap, hv, h]
    · intro h
      simp [definePropertyTrap, hv, h]
    · simp only [definePropertyTrap, hv]
      exact getValue_setAttr _ _ _

/-- Witness for `defineProperty_schedules_iff_value_changed`: defining a
fresh attribute with a value descriptor schedules the observer set. -/
theorem defineProperty_schedules_iff_value_changed_witness :
    (definePropertyTrap { attrs := [], observers := [4] } "p"
      { value := some (Value.int 1), hasGet := false } idleState).2 =
      scheduleCallbacks [4] idleState :=
  ((defineProperty_schedules_iff_value_changed { attrs := [], observers := [4] }
    "p" { value := some (Value.int 1), hasGet := false } idleState).2
    (Value.int 1) rfl).2.1 (by decide)

/-- Claim C7: constructing the abstract `Observable` base directly always
throws, while constructing any derived concrete subtype never throws and
returns the proxy wrapper around the fresh instance, not the plain
instance. -/
theorem observable_construction (name : String) :
    (∃ e, observableConstructor Ctor.observableBase = Except.error e) ∧
    observableConstructor (Ctor.derived name) =
      Except.ok (Handle.proxyH { attrs := [], observers := [] }) := by
  constructor
  · exact ⟨_, rfl⟩
  · rfl

/-- Claim C9: reading a value, enumerating keys, and serializing through
the proxy behave exactly as on a plain record holding the same
attributes and leave the scheduler state untouched, because `proxyTraps`
installs no read-side trap. -/
theorem proxy_read_transparent (target : Instance) (prop : String)
    (st : SchedState) :
    proxyGet proxyTraps target prop st = (getValue target.attrs prop, st) ∧
    proxyOwnKeys proxyTraps target st = (target.attrs.map Prod.fst, st) ∧
    proxySerialize proxyTraps target st = (plainSerialize target.attrs, st) := by
  refine ⟨rfl, rfl, ?_⟩
  show (target.attrs.map Prod.fst).foldl
      (fun (a : List (String × Value) × SchedState) k =>
        (a.1 ++ [(k, (proxyGet proxyTraps target k a.2).1)],
          (proxyGet proxyTraps target k a.2).2))
      ([], st) = (plainSerialize target.attrs, st)
  rw [proxySerialize_aux]
  simp [plainSerialize, serializeVia]

/-- Claim C3: `scheduleCallbacks` queues a new flush exactly when the
working set was empty before the merge and the supplied set is
non-empty; an empty set while idle is a no-op; while a round is pending
a call only merges identities into the working set; and in every
reachable module state at most one flush is pending. -/
theorem scheduleCallbacks_single_round (S : List CB) (st : SchedState) :
    (scheduleCallbacks S st).scheduledFlushes =
      st.scheduledFlushes + (if st.callacksQueue = [] ∧ S ≠ [] then 1 else 0) ∧
    scheduleCallbacks [] idleState = idleState ∧
    (st.callacksQueue ≠ [] →
      (scheduleCallbacks S st).callacksQueue = addAll st.callacksQueue S ∧
      (scheduleCallbacks S st).scheduledFlushes = st.scheduledFlushes) ∧
    (Reachable st → st.scheduledFlushes ≤ 1 ∧
      (st.scheduledFlushes = 1 → st.callacksQueue ≠ [])) := by
  refine ⟨scheduleCallbacks_flushes S st, scheduleCallbacks_nil idleState, ?_, ?_⟩
  · intro hq
    refine ⟨scheduleCallbacks_queue S st, ?_⟩
    rw [scheduleCallbacks_flushes, if_neg (fun hc => hq hc.1), Nat.add_zero]
  · intro hr
    obtain ⟨h1, h2, _⟩ := reachable_schedInvariant hr
    exact ⟨h1, h2.mp⟩

/-- Witness for `scheduleCallbacks_single_round` at the initial state. -/
theorem scheduleCallbacks_single_round_witness :
    idleState.scheduledFlushes ≤ 1 :=
  ((scheduleCallbacks_single_round [] idleState).2.2.2 Reachable.idle).1

/-- Claim C6: `forceNotify` throws when called with zero arguments,
throws when any argument lacks a valid observer set, and with valid
arguments succeeds and schedules each supplied instance's observer set —
one `scheduleCallbacks` call per instance — independent of any attribute
change. -/
theorem forceNotify_contract (args : List ObsArg) (st : SchedState) :
    (args = [] →
      forceNotify args st =
        (Except.error "forceNotify was called without observables", st)) ∧
    (args ≠ [] → none ∈ args →
      forceNotify args st =
        (Except.error "forceNotify was called with non-observables", st)) ∧
    (args ≠ [] → none ∉ args →
      forceNotify args st =
        (Except.ok (), scheduleAll (args.map (fun o => o.getD [])) st) ∧
      ∀ S : List CB, some S ∈ args → ∀ cb ∈ S,
        cb ∈ (forceNotify args st).2.callacksQueue) := by
  refine ⟨?_, ?_, ?_⟩
  · rintro rfl
    rfl
  · intro hne hmem
    have hi : ¬args.isEmpty = true := by
      simpa using hne
    have hany : args.any (fun o => o.isNone) = true := by
      rw [List.any_eq_true]
      exact ⟨none, hmem, rfl⟩
    unfold forceNotify observablesArgsCheck
    rw [if_neg hi, if_pos hany]
    rfl
  · intro hne hv
    have hok := forceNotify_ok args st hne hv
    refine ⟨hok, ?_⟩
    intro S hS cb hcb
    rw [hok]
    show cb ∈ (scheduleAll (args.map (fun o => o.getD [])) st).callacksQueue
    rw [scheduleAll_queue, mem_foldl_addAll]
    refine Or.inr ⟨S, ?_, hcb⟩
    rw [List.mem_map]
    exact ⟨some S, hS, rfl⟩

/-- Witness for `forceNotify_contract`: a single valid observable
schedules its observer set. -/
theorem forceNotify_contract_witness :
    forceNotify [some [9]] idleState =
      (Except.ok (), scheduleAll [[9]] idleState) :=
  ((forceNotify_contract [some [9]] idleState).2.2 (by simp) (by simp)).1

/-- Claim C10: `forceNotify` validates every argument before scheduling
anything, so when validation fails it throws and the scheduler state is
exactly the one it started with — no observer set of any argument,
including valid instances earlier in the list, is enqueued. -/
theorem forceNotify_atomic_on_error (args : List ObsArg) (st : SchedState)
    (h : args = [] ∨ none ∈ args) :
    (∃ e, (forceNotify args st).1 = Except.error e) ∧
    (forceNotify args st).2 = st := by
  have herr : ∃ e, observablesArgsCheck "forceNotify" args = Except.error e := by
    rcases h with rfl | hmem
    · exact ⟨_, rfl⟩
    · have hi : ¬args.isEmpty = true := by
        intro hi
        rw [List.isEmpty_iff] at hi
        subst hi
        exact absurd hmem (List.not_mem_nil none)
      have hany : args.any (fun o => o.isNone) = true := by
        rw [List.any_eq_true]
        exact ⟨none, hmem, rfl⟩
      unfold observablesArgsCheck
      rw [if_neg hi, if_pos hany]
      exact ⟨_, rfl⟩
  obtain ⟨e, he⟩ := herr
  unfold forceNotify
  rw [he]
  exact ⟨⟨e, rfl⟩, rfl⟩

/-- Witness for `forceNotify_atomic_on_error`: a valid instance followed
by a non-observable leaves the scheduler untouched. -/
theorem forceNotify_atomic_on_error_witness :
    (forceNotify [some [2], none] idleState).2 = idleState :=
  (forceNotify_atomic_on_error [some [2], none] idleState
    (Or.inr (by simp))).2

/-- Claim C8: a callback that throws during a flush is caught and its
error logged; every other callback in the working set is still invoked —
the invocation list is the whole queue no matter which callbacks throw —
and the flush still clears both the working set and the invoked-guard
set, leaving the scheduler idle for the next round. -/
theorem flush_isolates_callback_errors (exec : Exec) (st : SchedState)
    (hnd : st.callacksQueue.Nodup) (hc : st.calledCallbacks = []) :
    (runFlush exec st).2.1 = st.callacksQueue ∧
    (runFlush exec st).2.2 = st.callacksQueue.filterMap (errOf exec) ∧
    (runFlush exec st).1.callacksQueue = [] ∧
    (runFlush exec st).1.calledCallbacks = [] :=
  runFlush_spec exec st hnd hc

/-- Witness for `flush_isolates_callback_errors`: with the first of two
callbacks throwing, both are still invoked. -/
theorem flush_isolates_callback_errors_witness :
    (runFlush (fun cb => if cb = 1 then Except.error "boom" else Except.ok ())
      { callacksQueue := [1, 2], calledCallbacks := [],
        scheduledFlushes := 1 }).2.1 = [1, 2] :=
  (flush_isolates_callback_errors
    (fun cb => if cb = 1 then Except.error "boom" else Except.ok ())
    { callacksQueue := [1, 2], calledCallbacks := [], scheduledFlushes := 1 }
    (by decide) rfl).1

/-- Counterexample to Claim C1 as stated: one genuine mutation (the old
and new values are not same-value equal) of an instance whose observer
set is empty queues no flush at all, so "exactly one flush occurs
afterward" fails for this mutation sequence. -/
theorem one_mutation_no_subscriber_no_flush :
    objectIs (getValue [("prop", Value.int 1)] "prop") (Value.int 2) = false ∧
    (mutateAll [⟨⟨[("prop", Value.int 1)], []⟩, "prop", Value.int 2⟩]
      idleState).scheduledFlushes = 0 := by
  exact ⟨rfl, rfl⟩

/-- Claim C1 (amended): for every synchronous sequence of genuine
top-level mutations starting from the idle scheduler, provided at least
one mutated instance has a non-empty observer set, exactly one flush is
queued afterward; that flush invokes each distinct callback subscribed
to any of the mutated instances exactly once — even a callback
registered in the observer sets of several mutated instances — and
returns the scheduler to the idle state. -/
theorem one_flush_each_callback_once (ms : List Mutation) (exec : Exec)
    (hgen : ∀ m ∈ ms,
      objectIs (getValue m.target.attrs m.prop) m.newValue = false)
    (hobs : ∃ m ∈ ms, m.target.observers ≠ []) :
    (mutateAll ms idleState).scheduledFlushes = 1 ∧
    (∀ cb : CB, ((runFlush exec (mutateAll ms idleState)).2.1).count cb =
      if ∃ m ∈ ms, cb ∈ m.target.observers then 1 else 0) ∧
    (runFlush exec (mutateAll ms idleState)).1 = idleState := by
  rw [mutateAll_eq_scheduleAll ms idleState hgen]
  have hreach : Reachable (scheduleAll (ms.map (fun m => m.target.observers)) idleState) :=
    reachable_scheduleAll _ Reachable.idle
  obtain ⟨hle, hiff, hcalled⟩ := reachable_schedInvariant hreach
  have hqueue : (scheduleAll (ms.map (fun m => m.target.observers)) idleState).callacksQueue
      = (ms.map (fun m => m.target.observers)).foldl addAll [] :=
    scheduleAll_queue _ _
  have hmem : ∀ cb : CB,
      cb ∈ (scheduleAll (ms.map (fun m => m.target.observers)) idleState).callacksQueue
        ↔ ∃ m ∈ ms, cb ∈ m.target.observers := by
    intro cb
    rw [hqueue, mem_foldl_addAll]
    simp only [List.not_mem_nil, false_or, List.mem_map]
    constructor
    · rintro ⟨S, ⟨m, hm, rfl⟩, hcb⟩
      exact ⟨m, hm, hcb⟩
    · rintro ⟨m, hm, hcb⟩
      exact ⟨m.target.observers, ⟨m, hm, rfl⟩, hcb⟩
  have hne : (scheduleAll (ms.map (fun m => m.target.observers)) idleState).callacksQueue ≠ [] := by
    obtain ⟨m, hm, hobs'⟩ := hobs
    obtain ⟨cb, hcb⟩ := List.exists_mem_of_ne_nil _ hobs'
    exact List.ne_nil_of_mem ((hmem cb).mpr ⟨m, hm, hcb⟩)
  have hone : (scheduleAll (ms.map (fun m => m.target.observers)) idleState).scheduledFlushes = 1 :=
    hiff.mpr hne
  have hnd : (scheduleAll (ms.map (fun m => m.target.observers)) idleState).callacksQueue.Nodup := by
    rw [hqueue]
    exact nodup_foldl_addAll List.nodup_nil
  have hflush := runFlush_spec exec
    (scheduleAll (ms.map (fun m => m.target.observers)) idleState) hnd hcalled
  refine ⟨hone, ?_, ?_⟩
  · intro cb
    rw [hflush.1]
    rw [List.count_eq_of_nodup hnd]
    by_cases hin : ∃ m ∈ ms, cb ∈ m.target.observers
    · rw [if_pos ((hmem cb).mpr hin), if_pos hin]
    · rw [if_neg (fun hq => hin ((hmem cb).mp hq)), if_neg hin]
  · rw [runFlush_state, hone]
    rfl

/-- Witness for `one_flush_each_callback_once`: one genuine mutation of
an instance with one subscriber queues exactly one flush that invokes
the subscriber once. -/
theorem one_flush_each_callback_once_witness :
    (mutateAll [⟨⟨[("p", Value.int 1)], [5]⟩, "p", Value.int 2⟩]
      idleState).scheduledFlushes = 1 ∧
    ((runFlush (fun _ => Except.ok ())
      (mutateAll [⟨⟨[("p", Value.int 1)], [5]⟩, "p", Value.int 2⟩]
        idleState)).2.1).count 5 = 1 := by
  have h := one_flush_each_callback_once
    [⟨⟨[("p", Value.int 1)], [5]⟩, "p", Value.int 2⟩]
    (fun _ => Except.ok ()) (by decide) (by decide)
  exact ⟨h.1, (h.2.1 5).trans (by decide)⟩

end ReactObservable
